import Mathlib

/-!
Shallow embedding of the chip8-rust repository: the CHIP-8 interpreter core
(`chip8_core/src/lib.rs`) and the key-mapping part of the desktop host
(`desktop/src/main.rs`).

Machine integers are embedded as `Nat` with explicit `% 2 ^ w` where overflow
matters (`u8` values are kept below 256 by masking on writes, `u16` values
below 65536).  Fixed-size Rust arrays are embedded as total functions
`Nat → α` updated pointwise with `upd`; only indices below the array length
are ever meaningful.

The source file `chip8_core/src/lib.rs` contains the `Emu` struct and
`Emu::new`; every other operation of the core (`load`, `tick`, `tick_timers`,
`keypress`, the opcode handlers) is omitted from the sources, so those
operations are modelled from the specification, as marked in their doc
comments.
-/

namespace Chip8

/-- Display width in pixels (`SCREEN_WIDTH` in `chip8_core/src/lib.rs`). -/
def SCREEN_WIDTH : Nat := 64

/-- Display height in pixels (`SCREEN_HEIGHT` in `chip8_core/src/lib.rs`). -/
def SCREEN_HEIGHT : Nat := 32

/-- RAM size in bytes (`RAM_SIZE`). -/
def RAM_SIZE : Nat := 4096

/-- Number of general purpose registers (`NUM_REGS`). -/
def NUM_REGS : Nat := 16

/-- Call-stack capacity (`STACK_SIZE`). -/
def STACK_SIZE : Nat := 16

/-- Number of keypad keys (`NUM_KEYS`). -/
def NUM_KEYS : Nat := 16

/-- Program load address (`START_ADDR`, `0x200` = 512). -/
def START_ADDR : Nat := 0x200

/-- Pointwise update of a function embedding a fixed-size array. -/
def upd {α : Type} (f : Nat → α) (i : Nat) (v : α) : Nat → α :=
  fun j => if j = i then v else f j

/-- The machine state, field for field the Rust struct `Emu`
(`chip8_core/src/lib.rs`). -/
structure Emu where
  pc : Nat
  ram : Nat → Nat
  screen : Nat → Bool
  v_reg : Nat → Nat
  i_reg : Nat
  sp : Nat
  stack : Nat → Nat
  keys : Nat → Bool
  dt : Nat
  st : Nat

/-- A value of the heterogeneous Rust array literal used below. -/
inductive RustVal where
  | b (v : Bool)
  | n (v : Nat)
deriving DecidableEq

/-- The `screen` field initializer of `Emu::new` exactly as written in
`chip8_core/src/lib.rs`: `[false, SCREEN_WIDTH * SCREEN_HEIGHT]`.  With a
comma rather than a semicolon this denotes a two-element Rust array literal
(whose elements moreover have different types), not the repeat expression
`[false; SCREEN_WIDTH * SCREEN_HEIGHT]` that all the neighbouring fields use. -/
def new_screen_literal : List RustVal :=
  [RustVal.b false, RustVal.n (SCREEN_WIDTH * SCREEN_HEIGHT)]

/-- `Emu::new` from `chip8_core/src/lib.rs` with the evident intent of the
`screen` field (`[false; SCREEN_WIDTH * SCREEN_HEIGHT]`, i.e. all pixels
cleared); the initializer as literally written is embedded separately as
`new_screen_literal`. -/
def Emu.new : Emu :=
  { pc := START_ADDR
    ram := fun _ => 0
    screen := fun _ => false
    v_reg := fun _ => 0
    i_reg := 0
    sp := 0
    stack := fun _ => 0
    keys := fun _ => false
    dt := 0
    st := 0 }

/-- The reportable error conditions of the core (spec section 7). -/
inductive Chip8Error where
  | StackOverflow
  | StackUnderflow
  | CapacityExceeded
deriving DecidableEq

/-- Modelled from the spec: `load(program_bytes)` (spec section 4.1); the
function body is omitted from `chip8_core/src/lib.rs`.  Copies the byte
sequence into memory starting at `START_ADDR`; a sequence longer than
`RAM_SIZE - START_ADDR` bytes is rejected with `CapacityExceeded` before any
byte is written (all-or-nothing), per spec section 7. -/
def Emu.load (e : Emu) (data : List Nat) : Emu × Option Chip8Error :=
  if RAM_SIZE - START_ADDR < data.length then
    (e, some Chip8Error.CapacityExceeded)
  else
    ({ e with ram := fun a =>
        if START_ADDR ≤ a ∧ a < START_ADDR + data.length then data.getD (a - START_ADDR) 0
        else e.ram a }, none)

/-- Modelled from the spec: `keypress(key_index, is_pressed)` (spec section
4.1); the function body is omitted from `chip8_core/src/lib.rs`.  Sets
`key_state[key_index] = is_pressed`. -/
def Emu.keypress (e : Emu) (idx : Nat) (pressed : Bool) : Emu :=
  { e with keys := upd e.keys idx pressed }

/-- Modelled from the spec: `advance_timers()` (`tick_timers` in the code,
called from `desktop/src/main.rs`); the function body is omitted from
`chip8_core/src/lib.rs`.  Decrements `delay_timer` by 1 if non-zero and
`sound_timer` by 1 if non-zero (spec section 4.3). -/
def Emu.tick_timers (e : Emu) : Emu :=
  { e with
    dt := if 0 < e.dt then e.dt - 1 else e.dt
    st := if 0 < e.st then e.st - 1 else e.st }

/-- The decoded instructions: the standard CHIP-8 opcode table (spec section
4.2), plus `unknown` for every bit pattern that matches none of them. -/
inductive Instr where
  | cls
  | ret
  | jmp (nnn : Nat)
  | call (nnn : Nat)
  | seImm (x nn : Nat)
  | sneImm (x nn : Nat)
  | seReg (x y : Nat)
  | ldImm (x nn : Nat)
  | addImm (x nn : Nat)
  | ldReg (x y : Nat)
  | orReg (x y : Nat)
  | andReg (x y : Nat)
  | xorReg (x y : Nat)
  | addReg (x y : Nat)
  | subReg (x y : Nat)
  | shr (x : Nat)
  | subn (x y : Nat)
  | shl (x : Nat)
  | sneReg (x y : Nat)
  | ldI (nnn : Nat)
  | jmpV0 (nnn : Nat)
  | rnd (x nn : Nat)
  | drw (x y n : Nat)
  | skp (x : Nat)
  | sknp (x : Nat)
  | ldDt (x : Nat)
  | waitKey (x : Nat)
  | setDt (x : Nat)
  | setSt (x : Nat)
  | addI (x : Nat)
  | font (x : Nat)
  | bcd (x : Nat)
  | stRegs (x : Nat)
  | ldRegs (x : Nat)
  | unknown
deriving DecidableEq

/-- Modelled from the spec: the decode step of `tick` (spec section 4.2,
step 2); the dispatch code is omitted from `chip8_core/src/lib.rs`.  Splits
the 16-bit opcode into four nibbles; the high nibble selects the family, the
low byte or low nibble disambiguates within families 0x0, 0x5, 0x8, 0x9,
0xE, 0xF; every unlisted pattern decodes to `unknown`. -/
def decode (op : Nat) : Instr :=
  let n1 := op / 4096 % 16
  let x := op / 256 % 16
  let y := op / 16 % 16
  let n := op % 16
  let nn := op % 256
  let nnn := op % 4096
  if n1 = 0 then
    if nn = 0xE0 then Instr.cls
    else if nn = 0xEE then Instr.ret
    else Instr.unknown
  else if n1 = 1 then Instr.jmp nnn
  else if n1 = 2 then Instr.call nnn
  else if n1 = 3 then Instr.seImm x nn
  else if n1 = 4 then Instr.sneImm x nn
  else if n1 = 5 then (if n = 0 then Instr.seReg x y else Instr.unknown)
  else if n1 = 6 then Instr.ldImm x nn
  else if n1 = 7 then Instr.addImm x nn
  else if n1 = 8 then
    (if n = 0 then Instr.ldReg x y
     else if n = 1 then Instr.orReg x y
     else if n = 2 then Instr.andReg x y
     else if n = 3 then Instr.xorReg x y
     else if n = 4 then Instr.addReg x y
     else if n = 5 then Instr.subReg x y
     else if n = 6 then Instr.shr x
     else if n = 7 then Instr.subn x y
     else if n = 0xE then Instr.shl x
     else Instr.unknown)
  else if n1 = 9 then (if n = 0 then Instr.sneReg x y else Instr.unknown)
  else if n1 = 0xA then Instr.ldI nnn
  else if n1 = 0xB then Instr.jmpV0 nnn
  else if n1 = 0xC then Instr.rnd x nn
  else if n1 = 0xD then Instr.drw x y n
  else if n1 = 0xE then
    (if nn = 0x9E then Instr.skp x
     else if nn = 0xA1 then Instr.sknp x
     else Instr.unknown)
  else
    (if nn = 0x07 then Instr.ldDt x
     else if nn = 0x0A then Instr.waitKey x
     else if nn = 0x15 then Instr.setDt x
     else if nn = 0x18 then Instr.setSt x
     else if nn = 0x1E then Instr.addI x
     else if nn = 0x29 then Instr.font x
     else if nn = 0x33 then Instr.bcd x
     else if nn = 0x55 then Instr.stRegs x
     else if nn = 0x65 then Instr.ldRegs x
     else Instr.unknown)

/-- Screen index a sprite target hits: row offset `p.1`, bit offset `p.2`
within the sprite, drawn at base coordinates `(vx, vy)`. -/
def tIdx (vx vy : Nat) (p : Nat × Nat) : Nat :=
  (vy + p.1) * SCREEN_WIDTH + (vx + p.2)

/-- Whether a sprite target falls inside the 64×32 grid (targets outside are
clipped, spec section 4.2). -/
def tIn (vx vy : Nat) (p : Nat × Nat) : Bool :=
  decide (vx + p.2 < SCREEN_WIDTH) && decide (vy + p.1 < SCREEN_HEIGHT)

/-- The sprite bit a target carries: bit `7 - p.2` of sprite byte `p.1`,
read from RAM at `i_reg + p.1` (the most significant bit is the leftmost
pixel). -/
def sBit (e : Emu) (p : Nat × Nat) : Bool :=
  Nat.testBit (e.ram ((e.i_reg + p.1) % RAM_SIZE)) (7 - p.2)

/-- One step of the draw loop: if the target is on screen and its sprite bit
is set, flip the pixel and remember whether a lit pixel was turned off. -/
def drawStep (e : Emu) (vx vy : Nat) (acc : (Nat → Bool) × Bool) (p : Nat × Nat) :
    (Nat → Bool) × Bool :=
  if tIn vx vy p && sBit e p then
    (upd acc.1 (tIdx vx vy p) (!acc.1 (tIdx vx vy p)), acc.2 || acc.1 (tIdx vx vy p))
  else acc

/-- All (row offset, bit offset) pairs of an `n`-row sprite, in drawing
order. -/
def spriteTargets (n : Nat) : List (Nat × Nat) :=
  (List.range n).flatMap (fun r => (List.range 8).map (fun b => (r, b)))

/-- Modelled from the spec: the draw-sprite opcode body (spec section 4.2);
the handler is omitted from `chip8_core/src/lib.rs`.  Reads `n` bytes
starting at `i_reg`, XORs each sprite bit into the target pixel, clips
targets that fall outside the 64×32 grid (no wrapping), and sets register
0xF to 1 exactly when some pixel went from on to off. -/
def Emu.drawSprite (e : Emu) (vx vy n : Nat) : Emu :=
  let res := (spriteTargets n).foldl (drawStep e vx vy) (e.screen, false)
  { e with screen := res.1, v_reg := upd e.v_reg 15 (if res.2 then 1 else 0) }

/-- First pressed key, scanning indices 0,…,15 (used by the wait-for-key
opcode). -/
def firstKey (e : Emu) : Option Nat :=
  (List.range NUM_KEYS).find? (fun i => e.keys i)

/-- Modelled from the spec: the execute step of `tick` (spec section 4.2,
step 3); the opcode handlers are omitted from `chip8_core/src/lib.rs`.
`rnd` is the pseudo-random byte consumed by the `rnd` opcode (the PRNG
itself is a host concern).  Stack overflow and underflow are reported, not
crashes, and leave the state otherwise untouched (spec section 7); every
other handler reports no error. -/
def Emu.execute (e : Emu) (i : Instr) (rnd : Nat) : Emu × Option Chip8Error :=
  match i with
  | Instr.cls => ({ e with screen := fun _ => false }, none)
  | Instr.ret =>
      if e.sp = 0 then (e, some Chip8Error.StackUnderflow)
      else ({ e with sp := e.sp - 1, pc := e.stack (e.sp - 1) }, none)
  | Instr.jmp nnn => ({ e with pc := nnn }, none)
  | Instr.call nnn =>
      if STACK_SIZE ≤ e.sp then (e, some Chip8Error.StackOverflow)
      else ({ e with stack := upd e.stack e.sp e.pc, sp := e.sp + 1, pc := nnn }, none)
  | Instr.seImm x nn =>
      (if e.v_reg x = nn then { e with pc := (e.pc + 2) % 65536 } else e, none)
  | Instr.sneImm x nn =>
      (if e.v_reg x ≠ nn then { e with pc := (e.pc + 2) % 65536 } else e, none)
  | Instr.seReg x y =>
      (if e.v_reg x = e.v_reg y then { e with pc := (e.pc + 2) % 65536 } else e, none)
  | Instr.ldImm x nn => ({ e with v_reg := upd e.v_reg x nn }, none)
  | Instr.addImm x nn => ({ e with v_reg := upd e.v_reg x ((e.v_reg x + nn) % 256) }, none)
  | Instr.ldReg x y => ({ e with v_reg := upd e.v_reg x (e.v_reg y) }, none)
  | Instr.orReg x y => ({ e with v_reg := upd e.v_reg x (e.v_reg x ||| e.v_reg y) }, none)
  | Instr.andReg x y => ({ e with v_reg := upd e.v_reg x (e.v_reg x &&& e.v_reg y) }, none)
  | Instr.xorReg x y => ({ e with v_reg := upd e.v_reg x (e.v_reg x ^^^ e.v_reg y) }, none)
  | Instr.addReg x y =>
      let res := (e.v_reg x + e.v_reg y) % 256
      let vf := if 256 ≤ e.v_reg x + e.v_reg y then 1 else 0
      ({ e with v_reg := upd (upd e.v_reg x res) 15 vf }, none)
  | Instr.subReg x y =>
      let res := (e.v_reg x + 256 - e.v_reg y) % 256
      let vf := if e.v_reg y ≤ e.v_reg x then 1 else 0
      ({ e with v_reg := upd (upd e.v_reg x res) 15 vf }, none)
  | Instr.shr x =>
      ({ e with v_reg := upd (upd e.v_reg x (e.v_reg x / 2)) 15 (e.v_reg x % 2) }, none)
  | Instr.subn x y =>
      let res := (e.v_reg y + 256 - e.v_reg x) % 256
      let vf := if e.v_reg x ≤ e.v_reg y then 1 else 0
      ({ e with v_reg := upd (upd e.v_reg x res) 15 vf }, none)
  | Instr.shl x =>
      let vf := e.v_reg x / 128 % 2
      ({ e with v_reg := upd (upd e.v_reg x (e.v_reg x * 2 % 256)) 15 vf }, none)
  | Instr.sneReg x y =>
      (if e.v_reg x ≠ e.v_reg y then { e with pc := (e.pc + 2) % 65536 } else e, none)
  | Instr.ldI nnn => ({ e with i_reg := nnn }, none)
  | Instr.jmpV0 nnn => ({ e with pc := (nnn + e.v_reg 0) % 4096 }, none)
  | Instr.rnd x nn => ({ e with v_reg := upd e.v_reg x (rnd % 256 &&& nn) }, none)
  | Instr.drw x y n => (e.drawSprite (e.v_reg x) (e.v_reg y) n, none)
  | Instr.skp x =>
      (if e.keys (e.v_reg x) then { e with pc := (e.pc + 2) % 65536 } else e, none)
  | Instr.sknp x =>
      (if e.keys (e.v_reg x) then e else { e with pc := (e.pc + 2) % 65536 }, none)
  | Instr.ldDt x => ({ e with v_reg := upd e.v_reg x e.dt }, none)
  | Instr.waitKey x =>
      let e2 := match firstKey e with
        | some k => { e with v_reg := upd e.v_reg x k }
        | none => { e with pc := (e.pc + 65534) % 65536 }
      (e2, none)
  | Instr.setDt x => ({ e with dt := e.v_reg x }, none)
  | Instr.setSt x => ({ e with st := e.v_reg x }, none)
  | Instr.addI x => ({ e with i_reg := (e.i_reg + e.v_reg x) % 65536 }, none)
  | Instr.font x => ({ e with i_reg := e.v_reg x % 16 * 5 }, none)
  | Instr.bcd x =>
      let r1 := upd e.ram (e.i_reg % RAM_SIZE) (e.v_reg x / 100)
      let r2 := upd r1 ((e.i_reg + 1) % RAM_SIZE) (e.v_reg x / 10 % 10)
      let r3 := upd r2 ((e.i_reg + 2) % RAM_SIZE) (e.v_reg x % 10)
      ({ e with ram := r3 }, none)
  | Instr.stRegs x =>
      let r := (List.range (x + 1)).foldl
        (fun r k => upd r ((e.i_reg + k) % RAM_SIZE) (e.v_reg k)) e.ram
      ({ e with ram := r }, none)
  | Instr.ldRegs x =>
      let v := (List.range (x + 1)).foldl
        (fun v k => upd v k (e.ram ((e.i_reg + k) % RAM_SIZE))) e.v_reg
      ({ e with v_reg := v }, none)
  | Instr.unknown => (e, none)

/-- The fetch step of `tick` (spec section 4.2, step 1): the two bytes at
`pc` and `pc + 1`, combined big-endian. -/
def Emu.fetch (e : Emu) : Nat :=
  e.ram (e.pc % RAM_SIZE) * 256 + e.ram ((e.pc + 1) % RAM_SIZE)

/-- Modelled from the spec: `tick()` (spec section 4.2); the function body
is omitted from `chip8_core/src/lib.rs`.  Fetches the opcode at `pc`,
advances `pc` by 2 before dispatch, then decodes and executes. -/
def Emu.tick (e : Emu) (rnd : Nat) : Emu × Option Chip8Error :=
  let op := e.fetch
  let e1 := { e with pc := (e.pc + 2) % 65536 }
  e1.execute (decode op) rnd

/-- Run `n` consecutive ticks (with pseudo-random byte 0), collecting every
reported error. -/
def Emu.ticks (e : Emu) : Nat → Emu × List Chip8Error
  | 0 => (e, [])
  | n + 1 =>
      let r1 := e.tick 0
      let r2 := r1.1.ticks n
      (r2.1, r1.2.toList ++ r2.2)

/-- A 32-byte program of sixteen consecutive call instructions: the
instruction at `0x200 + 2k` is `2NNN` with `NNN = 0x202 + 2k`, i.e. each
call targets the next instruction. -/
def prog16 : List Nat :=
  (List.range 16).flatMap (fun k => [0x22, 2 * k + 2])

/-- The relevant SDL keycodes for `key2btn` in `desktop/src/main.rs`: the
sixteen mapped keys plus `Other` standing for every keycode the wildcard arm
catches. -/
inductive Keycode where
  | Num1 | Num2 | Num3 | Num4
  | Q | W | E | R
  | A | S | D | F
  | Z | X | C | V
  | Other
deriving DecidableEq

/-- `key2btn` from `desktop/src/main.rs`: maps a physical key to a CHIP-8
keypad index, or `none` for unmapped keys. -/
def key2btn (key : Keycode) : Option Nat :=
  match key with
  | Keycode.Num1 => some 0x1
  | Keycode.Num2 => some 0x2
  | Keycode.Num3 => some 0x3
  | Keycode.Num4 => some 0xC
  | Keycode.Q => some 0x4
  | Keycode.W => some 0x5
  | Keycode.E => some 0x6
  | Keycode.R => some 0xD
  | Keycode.A => some 0x7
  | Keycode.S => some 0x8
  | Keycode.D => some 0x9
  | Keycode.F => some 0xE
  | Keycode.Z => some 0xA
  | Keycode.X => some 0x0
  | Keycode.C => some 0xB
  | Keycode.V => some 0xF
  | Keycode.Other => none

/-- The SDL events the main loop of `desktop/src/main.rs` matches on;
`OtherEvent` stands for every event its wildcard arm catches, and the
`Option Keycode` mirrors the `keycode: Option<Keycode>` field. -/
inductive Event where
  | Quit
  | KeyDown (key : Option Keycode)
  | KeyUp (key : Option Keycode)
  | OtherEvent
deriving DecidableEq

/-- The `keypress` calls the event loop of `desktop/src/main.rs` issues for
one event: on `KeyDown`/`KeyUp` with a keycode, exactly the index `key2btn`
returns (if any), pressed/released; nothing otherwise. -/
def hostKeyCalls (ev : Event) : List (Nat × Bool) :=
  match ev with
  | Event.KeyDown (some key) =>
      match key2btn key with
      | some k => [(k, true)]
      | none => []
  | Event.KeyUp (some key) =>
      match key2btn key with
      | some k => [(k, false)]
      | none => []
  | _ => []

/-- The state effect of one polled event in the main loop of
`desktop/src/main.rs`: apply each resulting `keypress` call. -/
def handleEvent (e : Emu) (ev : Event) : Emu :=
  (hostKeyCalls ev).foldl (fun acc pr => acc.keypress pr.1 pr.2) e

/-- A state with sixteen active stack entries and a call instruction
(`0x2400`) at the program counter. -/
def e_ovf : Emu :=
  { Emu.new with
    sp := 16
    ram := upd (upd (fun _ => 0) 0x200 0x24) 0x201 0x00 }

/-- A fresh state with a return instruction (`0x00EE`) at the program
counter. -/
def e_ret : Emu :=
  { Emu.new with ram := upd (upd (fun _ => 0) 0x200 0x00) 0x201 0xEE }

/-- A fresh state holding the unrecognized opcode `0x5121` at the program
counter. -/
def e_unknown : Emu :=
  { Emu.new with ram := upd (upd (fun _ => 0) 0x200 0x51) 0x201 0x21 }

/-- Register values for the arithmetic examples: V0=0xFF, V1=0x01, V2=0x01,
V3=0x02. -/
def e_arith : Emu :=
  { Emu.new with v_reg := fun i =>
      if i = 0 then 0xFF else if i = 1 then 0x01 else if i = 2 then 0x01
      else if i = 3 then 0x02 else 0 }

/-- A state at pc=0x300 with a call to 0x400 there (`0x2400`) and a return
instruction (`0x00EE`) at 0x400. -/
def e_cr : Emu :=
  { Emu.new with
    pc := 0x300
    ram := upd (upd (fun _ => 0) 0x300 0x24) 0x401 0xEE }

/-- Timers at 5 and 3. -/
def e_t5 : Emu := { Emu.new with dt := 5, st := 3 }

/-- Draw-witness state: V0=60, every other register 0, sprite byte 0xFF at
address 0 with i_reg = 0. -/
def e_draw : Emu :=
  { Emu.new with
    ram := upd (fun _ => 0) 0 0xFF
    v_reg := fun i => if i = 0 then 60 else 0 }

/-- C1: `Emu::new()` puts `program_counter` at 512 and zeroes the scalar
fields and every array field, but its `screen` initializer as written,
`[false, SCREEN_WIDTH * SCREEN_HEIGHT]`, denotes a two-element array literal
(a comma where the repeat expression needs a semicolon), not 64×32 = 2048
cleared pixels — so the display is not "every cell false" as claimed. -/
theorem new_screen_literal_mismatch :
    Emu.new.pc = 512 ∧ Emu.new.i_reg = 0 ∧ Emu.new.sp = 0
  ∧ Emu.new.dt = 0 ∧ Emu.new.st = 0
  ∧ (∀ a, Emu.new.ram a = 0) ∧ (∀ i, Emu.new.v_reg i = 0)
  ∧ (∀ i, Emu.new.stack i = 0) ∧ (∀ i, Emu.new.keys i = false)
  ∧ new_screen_literal.length = 2
  ∧ new_screen_literal ≠ List.replicate (SCREEN_WIDTH * SCREEN_HEIGHT) (RustVal.b false) := by
  refine ⟨rfl, rfl, rfl, rfl, rfl, fun _ => rfl, fun _ => rfl, fun _ => rfl, fun _ => rfl,
    rfl, ?_⟩
  decide

/-- C4: any opcode bit pattern that decodes to none of the table's
instructions makes `tick` a pure no-op apart from the fetch advance of the
program counter by 2, and no error is reported. -/
theorem tick_unknown_noop (e : Emu) (rnd : Nat) (h : decode e.fetch = Instr.unknown) :
    e.tick rnd = ({ e with pc := (e.pc + 2) % 65536 }, none) := by
  simp only [Emu.tick]
  rw [h]
  rfl

/-- Witness for C4 at the unrecognized opcode 0x5121. -/
theorem tick_unknown_noop_witness :
    decode e_unknown.fetch = Instr.unknown
  ∧ e_unknown.tick 0 = ({ e_unknown with pc := 514 }, none) :=
  ⟨by decide, tick_unknown_noop e_unknown 0 (by decide)⟩

/-- C5: register-register add and subtract wrap the stored result modulo
256 and set register 0xF from the pre-wrap operands: add carries exactly
when the true sum reaches 256, subtract borrows (flag 0) exactly when the
subtrahend exceeds the minuend; neither reports an error. -/
theorem addReg_subReg_spec (e : Emu) (x y rnd : Nat) (hx : x ≠ 15)
    (ha : e.v_reg x < 256) (hb : e.v_reg y < 256) :
    ((e.execute (Instr.addReg x y) rnd).1.v_reg x = (e.v_reg x + e.v_reg y) % 256)
  ∧ (((e.execute (Instr.addReg x y) rnd).1.v_reg x : Int)
        = ((e.v_reg x : Int) + (e.v_reg y : Int)) % 256)
  ∧ ((e.execute (Instr.addReg x y) rnd).1.v_reg 15
        = if 256 ≤ e.v_reg x + e.v_reg y then 1 else 0)
  ∧ ((e.execute (Instr.subReg x y) rnd).1.v_reg x = (e.v_reg x + 256 - e.v_reg y) % 256)
  ∧ (((e.execute (Instr.subReg x y) rnd).1.v_reg x : Int)
        = ((e.v_reg x : Int) - (e.v_reg y : Int)) % 256)
  ∧ ((e.execute (Instr.subReg x y) rnd).1.v_reg 15
        = if e.v_reg y ≤ e.v_reg x then 1 else 0)
  ∧ (e.execute (Instr.addReg x y) rnd).2 = none
  ∧ (e.execute (Instr.subReg x y) rnd).2 = none := by
  have hadd : (e.execute (Instr.addReg x y) rnd).1.v_reg x = (e.v_reg x + e.v_reg y) % 256 := by
    simp [Emu.execute, upd, hx]
  have hsub : (e.execute (Instr.subReg x y) rnd).1.v_reg x
      = (e.v_reg x + 256 - e.v_reg y) % 256 := by
    simp [Emu.execute, upd, hx]
  refine ⟨hadd, ?_, ?_, hsub, ?_, ?_, rfl, rfl⟩
  · rw [hadd]
    omega
  · simp [Emu.execute, upd]
  · rw [hsub]
    omega
  · simp [Emu.execute, upd]

/-- Witness for C5: 0xFF + 0x01 gives 0x00 with carry flag 1, and
0x01 - 0x02 gives 0xFF with flag 0 (borrow). -/
theorem addReg_subReg_spec_witness :
    (e_arith.execute (Instr.addReg 0 1) 0).1.v_reg 0 = 0x00
  ∧ (e_arith.execute (Instr.addReg 0 1) 0).1.v_reg 15 = 1
  ∧ (e_arith.execute (Instr.subReg 2 3) 0).1.v_reg 2 = 0xFF
  ∧ (e_arith.execute (Instr.subReg 2 3) 0).1.v_reg 15 = 0 := by
  have h1 := addReg_subReg_spec e_arith 0 1 0 (by decide) (by decide) (by decide)
  have h2 := addReg_subReg_spec e_arith 2 3 0 (by decide) (by decide) (by decide)
  refine ⟨?_, ?_, ?_, ?_⟩
  · simpa [e_arith] using h1.1
  · simpa [e_arith] using h1.2.2.1
  · simpa [e_arith] using h2.2.2.2.1
  · simpa [e_arith] using h2.2.2.2.2.2.1

/-- C7: loading a program of at most 3584 bytes on a fresh state reports no
error, copies byte N to address 512+N, and changes nothing else: the rest
of RAM stays zero and every other field keeps its construction default. -/
theorem load_copies_program (data : List Nat) (hlen : data.length ≤ 3584) :
    (Emu.new.load data).2 = none
  ∧ (∀ n, n < data.length → (Emu.new.load data).1.ram (512 + n) = data.getD n 0)
  ∧ (∀ a, a < 512 ∨ 512 + data.length ≤ a → (Emu.new.load data).1.ram a = 0)
  ∧ (Emu.new.load data).1.pc = 512
  ∧ (Emu.new.load data).1.screen = Emu.new.screen
  ∧ (Emu.new.load data).1.v_reg = Emu.new.v_reg
  ∧ (Emu.new.load data).1.i_reg = 0
  ∧ (Emu.new.load data).1.sp = 0
  ∧ (Emu.new.load data).1.stack = Emu.new.stack
  ∧ (Emu.new.load data).1.keys = Emu.new.keys
  ∧ (Emu.new.load data).1.dt = 0
  ∧ (Emu.new.load data).1.st = 0 := by
  have hc : ¬ (RAM_SIZE - START_ADDR < data.length) := by
    simp only [RAM_SIZE, START_ADDR]
    omega
  simp only [Emu.load, if_neg hc]
  refine ⟨trivial, ?_, ?_, rfl, trivial, trivial, rfl, rfl, trivial, trivial, rfl, rfl⟩
  · intro n hn
    have h1 : START_ADDR ≤ 512 + n ∧ 512 + n < START_ADDR + data.length := by
      simp only [START_ADDR]
      omega
    simp only [if_pos h1]
    have h2 : 512 + n - START_ADDR = n := by
      simp only [START_ADDR]
      omega
    rw [h2]
  · intro a ha
    have h1 : ¬ (START_ADDR ≤ a ∧ a < START_ADDR + data.length) := by
      simp only [START_ADDR]
      omega
    simp only [if_neg h1]
    rfl

/-- Witness for C7 with the two-byte program [0xAB, 0xCD]. -/
theorem load_copies_program_witness :
    (Emu.new.load [0xAB, 0xCD]).2 = none
  ∧ (Emu.new.load [0xAB, 0xCD]).1.ram 512 = 0xAB
  ∧ (Emu.new.load [0xAB, 0xCD]).1.ram 513 = 0xCD
  ∧ (Emu.new.load [0xAB, 0xCD]).1.ram 514 = 0 := by
  have h := load_copies_program [0xAB, 0xCD] (by simp)
  exact ⟨h.1, h.2.1 0 (by simp), h.2.1 1 (by simp), h.2.2.1 514 (by simp)⟩

/-- C8: loading more than 3584 bytes reports `CapacityExceeded` and returns
the machine state unchanged, on any state (all-or-nothing). -/
theorem load_capacity_exceeded (e : Emu) (data : List Nat) (h : 3584 < data.length) :
    e.load data = (e, some Chip8Error.CapacityExceeded) := by
  have hc : RAM_SIZE - START_ADDR < data.length := by
    simp only [RAM_SIZE, START_ADDR]
    omega
  simp [Emu.load, hc]

/-- Witness for C8 at a 3585-byte program. -/
theorem load_capacity_exceeded_witness :
    Emu.new.load (List.replicate 3585 0) = (Emu.new, some Chip8Error.CapacityExceeded) :=
  load_capacity_exceeded Emu.new (List.replicate 3585 0)
    (by simp only [List.length_replicate]; omega)

/-- C9: `tick_timers` decrements a non-zero delay timer by exactly one,
leaves a zero delay timer at zero, independently does the same for the
sound timer, and touches no other field. -/
theorem tick_timers_spec (e : Emu) :
    (e.dt ≠ 0 → e.tick_timers.dt = e.dt - 1)
  ∧ (e.dt = 0 → e.tick_timers.dt = 0)
  ∧ (e.st ≠ 0 → e.tick_timers.st = e.st - 1)
  ∧ (e.st = 0 → e.tick_timers.st = 0)
  ∧ e.tick_timers.pc = e.pc ∧ e.tick_timers.ram = e.ram ∧ e.tick_timers.screen = e.screen
  ∧ e.tick_timers.v_reg = e.v_reg ∧ e.tick_timers.i_reg = e.i_reg ∧ e.tick_timers.sp = e.sp
  ∧ e.tick_timers.stack = e.stack ∧ e.tick_timers.keys = e.keys := by
  refine ⟨?_, ?_, ?_, ?_, rfl, rfl, rfl, rfl, rfl, rfl, rfl, rfl⟩ <;>
    · intro h
      simp only [Emu.tick_timers]
      split <;> omega

/-- Witness for C9: a delay timer of 5 becomes 4; a zero delay timer stays
0. -/
theorem tick_timers_spec_witness :
    e_t5.tick_timers.dt = 4 ∧ Emu.new.tick_timers.dt = 0 := by
  constructor
  · have h := (tick_timers_spec e_t5).1 (by decide)
    simpa [e_t5] using h
  · exact (tick_timers_spec Emu.new).2.1 rfl

/-- C3: with the stack full (sp = 16) a call opcode reports StackOverflow
and the resulting state differs from the old one only by the fetch advance
of pc (stack and sp untouched); with the stack empty a return opcode
reports StackUnderflow, likewise without further mutation; and sixteen
consecutive calls from an empty stack all succeed, reaching sp = 16.
`tick` is a total function, so neither condition crashes the interpreter. -/
theorem stack_error_spec :
    (∀ (e : Emu) (rnd nnn : Nat), e.sp = 16 → decode e.fetch = Instr.call nnn →
        e.tick rnd = ({ e with pc := (e.pc + 2) % 65536 }, some Chip8Error.StackOverflow))
  ∧ (∀ (e : Emu) (rnd : Nat), e.sp = 0 → decode e.fetch = Instr.ret →
        e.tick rnd = ({ e with pc := (e.pc + 2) % 65536 }, some Chip8Error.StackUnderflow))
  ∧ ((Emu.new.load prog16).1.ticks 16).2 = []
  ∧ ((Emu.new.load prog16).1.ticks 16).1.sp = 16 := by
  refine ⟨?_, ?_, by decide, by decide⟩
  · intro e rnd nnn hsp hdec
    simp only [Emu.tick]
    rw [hdec]
    simp [Emu.execute, STACK_SIZE, hsp]
  · intro e rnd hsp hdec
    simp only [Emu.tick]
    rw [hdec]
    simp [Emu.execute, hsp]

/-- Witness for C3: a call with sp = 16 reports StackOverflow, a return
with sp = 0 reports StackUnderflow. -/
theorem stack_error_spec_witness :
    e_ovf.tick 0 = ({ e_ovf with pc := 514 }, some Chip8Error.StackOverflow)
  ∧ e_ret.tick 0 = ({ e_ret with pc := 514 }, some Chip8Error.StackUnderflow) :=
  ⟨stack_error_spec.1 e_ovf 0 0x400 rfl (by decide),
   stack_error_spec.2.1 e_ret 0 rfl (by decide)⟩

/-- C6: from any state with a free stack slot, executing a call opcode
pushes and jumps (pc = target, sp + 1, no error), and a subsequent return
opcode restores pc to the instruction after the call (original pc + 2) and
sp to its original value, with no error. -/
theorem call_ret_roundtrip (e : Emu) (rnd rnd2 nnn : Nat)
    (hsp : e.sp < 16) (hpc : e.pc + 2 < 65536)
    (hc : decode e.fetch = Instr.call nnn)
    (hr : decode ((e.tick rnd).1.fetch) = Instr.ret) :
    (e.tick rnd).2 = none
  ∧ (e.tick rnd).1.pc = nnn
  ∧ (e.tick rnd).1.sp = e.sp + 1
  ∧ ((e.tick rnd).1.tick rnd2).2 = none
  ∧ ((e.tick rnd).1.tick rnd2).1.pc = e.pc + 2
  ∧ ((e.tick rnd).1.tick rnd2).1.sp = e.sp := by
  have hnle : ¬ (STACK_SIZE ≤ e.sp) := by
    simp only [STACK_SIZE]
    omega
  have h1 : e.tick rnd =
      ({ e with stack := upd e.stack e.sp ((e.pc + 2) % 65536), sp := e.sp + 1, pc := nnn },
        none) := by
    simp only [Emu.tick]
    rw [hc]
    simp [Emu.execute, hnle]
  rw [h1] at hr
  rw [h1]
  have h2 : ({ e with stack := upd e.stack e.sp ((e.pc + 2) % 65536), sp := e.sp + 1, pc := nnn } : Emu).tick rnd2 =
      ({ e with stack := upd e.stack e.sp ((e.pc + 2) % 65536), sp := e.sp, pc := (e.pc + 2) % 65536 }, none) := by
    simp only [Emu.tick]
    rw [hr]
    simp [Emu.execute, upd]
  rw [h2]
  simp [Nat.mod_eq_of_lt hpc]

/-- Witness for C6: from pc = 0x300, a call to 0x400 gives pc = 0x400 and
sp = 1, and the return restores pc = 0x302 and sp = 0. -/
theorem call_ret_roundtrip_witness :
    (e_cr.tick 0).1.pc = 0x400 ∧ (e_cr.tick 0).1.sp = 1
  ∧ ((e_cr.tick 0).1.tick 0).1.pc = 0x302 ∧ ((e_cr.tick 0).1.tick 0).1.sp = 0 := by
  have h := call_ret_roundtrip e_cr 0 0 0x400 (by decide) (by decide) (by decide) (by decide)
  exact ⟨h.2.1, h.2.2.1, h.2.2.2.2.1, h.2.2.2.2.2⟩

/-- Every index `key2btn` produces is a valid keypad index. -/
theorem key2btn_lt (k : Keycode) (i : Nat) (h : key2btn k = some i) : i < 16 := by
  cases k <;> simp [key2btn] at h <;> omega

/-- C10: `key2btn` returns `none` or a keypad index below 16, and the event
loop of the desktop host issues `keypress` calls only at indices obtained
from `key2btn`, so every issued key index is below 16 and the key-state
access stays in bounds. -/
theorem host_key_indices_bounded :
    (∀ k : Keycode, key2btn k = none ∨ ∃ i, key2btn k = some i ∧ i < 16)
  ∧ (∀ (ev : Event) (pr : Nat × Bool), pr ∈ hostKeyCalls ev → pr.1 < 16) := by
  constructor
  · intro k
    cases hk : key2btn k with
    | none => exact Or.inl rfl
    | some i => exact Or.inr ⟨i, rfl, key2btn_lt k i hk⟩
  · intro ev pr hpr
    cases ev with
    | Quit => simp [hostKeyCalls] at hpr
    | OtherEvent => simp [hostKeyCalls] at hpr
    | KeyDown ko =>
        cases ko with
        | none => simp [hostKeyCalls] at hpr
        | some k =>
            cases hk : key2btn k with
            | none => simp [hostKeyCalls, hk] at hpr
            | some i =>
                simp only [hostKeyCalls, hk, List.mem_singleton] at hpr
                rw [hpr]
                exact key2btn_lt k i hk
    | KeyUp ko =>
        cases ko with
        | none => simp [hostKeyCalls] at hpr
        | some k =>
            cases hk : key2btn k with
            | none => simp [hostKeyCalls, hk] at hpr
            | some i =>
                simp only [hostKeyCalls, hk, List.mem_singleton] at hpr
                rw [hpr]
                exact key2btn_lt k i hk

/-- Witness for C10 at the key mapped to index 1 and a key-down event. -/
theorem host_key_indices_bounded_witness :
    ((1, true) ∈ hostKeyCalls (Event.KeyDown (some Keycode.Num1)))
  ∧ ((1 : Nat), true).1 < 16 :=
  ⟨by decide, host_key_indices_bounded.2 (Event.KeyDown (some Keycode.Num1)) (1, true)
    (by decide)⟩

/-- Auxiliary: `List.any` only depends on the predicate's values at the
list's members. -/
theorem any_congr_mem {α : Type} (l : List α) (g g' : α → Bool)
    (h : ∀ a ∈ l, g a = g' a) : l.any g = l.any g' := by
  induction l with
  | nil => rfl
  | cons a t ih =>
      simp only [List.any_cons]
      rw [h a (List.mem_cons_self a t), ih (fun b hb => h b (List.mem_cons_of_mem a hb))]

/-- Pointwise characterization of the draw fold, for any target list whose
in-bounds targets hit pairwise distinct pixels: the final screen XORs each
pixel with the sprite bit of the (unique) in-bounds target hitting it, and
the collision accumulator records whether some in-bounds target with a set
sprite bit found its pixel lit in the original screen. -/
theorem drawFold_spec (e : Emu) (vx vy : Nat) (L : List (Nat × Nat)) :
    ∀ (s : Nat → Bool) (f : Bool),
      (∀ p ∈ L, ∀ q ∈ L, tIn vx vy p = true → tIn vx vy q = true →
        tIdx vx vy p = tIdx vx vy q → p = q) →
      L.Nodup →
      ((∀ j, (L.foldl (drawStep e vx vy) (s, f)).1 j =
          match L.find? (fun p => tIn vx vy p && (tIdx vx vy p == j)) with
          | some p => Bool.xor (s j) (sBit e p)
          | none => s j)
        ∧ (L.foldl (drawStep e vx vy) (s, f)).2 =
            (f || L.any (fun p => tIn vx vy p && sBit e p && s (tIdx vx vy p)))) := by
  induction L with
  | nil => exact fun s f _ _ => ⟨fun j => rfl, by simp⟩
  | cons p t ih =>
      intro s f hinj hnd
      obtain ⟨hpt, hndt⟩ := List.nodup_cons.mp hnd
      have hinjt : ∀ a ∈ t, ∀ b ∈ t, tIn vx vy a = true → tIn vx vy b = true →
          tIdx vx vy a = tIdx vx vy b → a = b := fun a ha b hb =>
        hinj a (List.mem_cons_of_mem p ha) b (List.mem_cons_of_mem p hb)
      have hsep : ∀ q ∈ t, tIn vx vy p = true → tIn vx vy q = true →
          tIdx vx vy p ≠ tIdx vx vy q := by
        intro q hq hip hiq he
        apply hpt
        rw [hinj p (List.mem_cons_self p t) q (List.mem_cons_of_mem p hq) hip hiq he]
        exact hq
      simp only [List.foldl_cons]
      by_cases hc : (tIn vx vy p && sBit e p) = true
      · have hstep : drawStep e vx vy (s, f) p =
            (upd s (tIdx vx vy p) (!s (tIdx vx vy p)), f || s (tIdx vx vy p)) := by
          simp [drawStep, hc]
        rw [hstep]
        rw [Bool.and_eq_true] at hc
        obtain ⟨hcin, hcbit⟩ := hc
        obtain ⟨ihs, ihf⟩ :=
          ih (upd s (tIdx vx vy p) (!s (tIdx vx vy p))) (f || s (tIdx vx vy p)) hinjt hndt
        constructor
        · intro j
          rw [ihs j]
          by_cases hj : (tIn vx vy p && (tIdx vx vy p == j)) = true
          · have hj' := hj
            rw [Bool.and_eq_true, beq_iff_eq] at hj'
            obtain ⟨hj1, hj2⟩ := hj'
            have hnone : t.find? (fun q => tIn vx vy q && (tIdx vx vy q == j)) = none := by
              rw [List.find?_eq_none]
              intro q hq hqp
              rw [Bool.and_eq_true, beq_iff_eq] at hqp
              exact hsep q hq hcin hqp.1 (hj2.trans hqp.2.symm)
            rw [List.find?_cons_of_pos (p := fun q => tIn vx vy q && (tIdx vx vy q == j)) t hj, hnone]
            subst hj2
            simp [upd, hcbit]
          · rw [List.find?_cons_of_neg (p := fun q => tIn vx vy q && (tIdx vx vy q == j)) t hj]
            have hne : j ≠ tIdx vx vy p := by
              intro hjeq
              apply hj
              rw [Bool.and_eq_true, beq_iff_eq]
              exact ⟨hcin, hjeq.symm⟩
            have hupd : upd s (tIdx vx vy p) (!s (tIdx vx vy p)) j = s j := by
              simp [upd, hne]
            cases hft : t.find? (fun q => tIn vx vy q && (tIdx vx vy q == j)) with
            | none => simp only [hft]; exact hupd
            | some q => simp only [hft]; rw [hupd]
        · rw [ihf]
          have hsame : t.any (fun q => tIn vx vy q && sBit e q
                && (upd s (tIdx vx vy p) (!s (tIdx vx vy p))) (tIdx vx vy q))
              = t.any (fun q => tIn vx vy q && sBit e q && s (tIdx vx vy q)) := by
            apply any_congr_mem
            intro q hq
            by_cases hiq : tIn vx vy q = true
            · have hne : tIdx vx vy q ≠ tIdx vx vy p := fun he =>
                hsep q hq hcin hiq he.symm
              simp [upd, hne]
            · rw [Bool.not_eq_true] at hiq
              simp [hiq]
          rw [hsame]
          simp only [List.any_cons, hcin, hcbit, Bool.true_and]
          rw [Bool.or_assoc]
      · have hstep : drawStep e vx vy (s, f) p = (s, f) := by
          simp [drawStep, hc]
        rw [hstep]
        obtain ⟨ihs, ihf⟩ := ih s f hinjt hndt
        constructor
        · intro j
          rw [ihs j]
          by_cases hj : (tIn vx vy p && (tIdx vx vy p == j)) = true
          · have hj' := hj
            rw [Bool.and_eq_true, beq_iff_eq] at hj'
            obtain ⟨hj1, hj2⟩ := hj'
            have hbit : sBit e p = false := by
              cases hb : sBit e p
              · rfl
              · exact absurd (by rw [Bool.and_eq_true]; exact ⟨hj1, hb⟩) hc
            have hnone : t.find? (fun q => tIn vx vy q && (tIdx vx vy q == j)) = none := by
              rw [List.find?_eq_none]
              intro q hq hqp
              rw [Bool.and_eq_true, beq_iff_eq] at hqp
              exact hsep q hq hj1 hqp.1 (hj2.trans hqp.2.symm)
            rw [List.find?_cons_of_pos (p := fun q => tIn vx vy q && (tIdx vx vy q == j)) t hj, hnone]
            simp [hbit]
          · rw [List.find?_cons_of_neg (p := fun q => tIn vx vy q && (tIdx vx vy q == j)) t hj]
        · rw [ihf]
          simp only [List.any_cons]
          have hfalse : (tIn vx vy p && sBit e p && s (tIdx vx vy p)) = false := by
            rw [Bool.eq_false_iff]
            intro hcontra
            rw [Bool.and_eq_true] at hcontra
            exact hc hcontra.1
          rw [hfalse]
          simp

/-- Membership in the sprite target list. -/
theorem mem_spriteTargets (n : Nat) (p : Nat × Nat) :
    p ∈ spriteTargets n ↔ p.1 < n ∧ p.2 < 8 := by
  obtain ⟨r, b⟩ := p
  simp only [spriteTargets, List.mem_flatMap, List.mem_map, List.mem_range]
  constructor
  · rintro ⟨a, ha, x, hx, he⟩
    obtain ⟨h1, h2⟩ := Prod.mk.injEq a x r b ▸ he
    exact ⟨h1 ▸ ha, h2 ▸ hx⟩
  · rintro ⟨h1, h2⟩
    exact ⟨r, h1, b, h2, rfl⟩

/-- The sprite target list has no duplicates. -/
theorem spriteTargets_nodup (n : Nat) : (spriteTargets n).Nodup := by
  refine List.nodup_flatMap.mpr ⟨?_, ?_⟩
  · intro r _
    refine (List.nodup_range 8).map ?_
    intro a b hab
    simpa using hab
  · have h := List.pairwise_lt_range n
    apply h.imp
    intro a b hab
    intro z hz1 hz2
    simp only [List.mem_map, List.mem_range] at hz1 hz2
    obtain ⟨b1, _, he1⟩ := hz1
    obtain ⟨b2, _, he2⟩ := hz2
    rw [← he1] at he2
    obtain ⟨hfst, _⟩ := Prod.mk.injEq b b2 a b1 ▸ he2
    omega

/-- Distinct in-bounds sprite targets hit distinct pixels. -/
theorem spriteTargets_inj (vx vy n : Nat) :
    ∀ p ∈ spriteTargets n, ∀ q ∈ spriteTargets n, tIn vx vy p = true → tIn vx vy q = true →
      tIdx vx vy p = tIdx vx vy q → p = q := by
  intro p hp q hq hip hiq he
  rw [mem_spriteTargets] at hp hq
  obtain ⟨p1, p2⟩ := p
  obtain ⟨q1, q2⟩ := q
  simp only [tIn, Bool.and_eq_true, decide_eq_true_eq] at hip hiq
  simp only [tIdx] at he
  simp only [Prod.mk.injEq]
  simp only [SCREEN_WIDTH, SCREEN_HEIGHT] at *
  omega

/-- The screen after a draw, pixel by pixel, via the first matching target. -/
theorem drawSprite_screen (e : Emu) (vx vy n : Nat) (j : Nat) :
    (e.drawSprite vx vy n).screen j =
      match (spriteTargets n).find? (fun p => tIn vx vy p && (tIdx vx vy p == j)) with
      | some p => Bool.xor (e.screen j) (sBit e p)
      | none => e.screen j :=
  (drawFold_spec e vx vy (spriteTargets n) e.screen false
    (spriteTargets_inj vx vy n) (spriteTargets_nodup n)).1 j

/-- The collision flag after a draw. -/
theorem drawSprite_flag (e : Emu) (vx vy n : Nat) :
    (e.drawSprite vx vy n).v_reg 15 =
      if (spriteTargets n).any (fun p => tIn vx vy p && sBit e p && e.screen (tIdx vx vy p))
      then 1 else 0 := by
  have h := (drawFold_spec e vx vy (spriteTargets n) e.screen false
    (spriteTargets_inj vx vy n) (spriteTargets_nodup n)).2
  have h2 : (e.drawSprite vx vy n).v_reg 15
      = (if (List.foldl (drawStep e vx vy) (e.screen, false) (spriteTargets n)).2 = true
          then 1 else 0) := by
    simp [Emu.drawSprite, upd]
  rw [h2, h]
  rw [Bool.false_or]

/-- Cells that are not in-bounds sprite targets are untouched by a draw. -/
theorem drawSprite_screen_frame (e : Emu) (vx vy n col row : Nat)
    (hcol : col < SCREEN_WIDTH) (_hrow : row < SCREEN_HEIGHT)
    (hnt : ¬(vx ≤ col ∧ col < vx + 8 ∧ vy ≤ row ∧ row < vy + n)) :
    (e.drawSprite vx vy n).screen (row * SCREEN_WIDTH + col)
      = e.screen (row * SCREEN_WIDTH + col) := by
  rw [drawSprite_screen]
  have hnone : (spriteTargets n).find?
      (fun p => tIn vx vy p && (tIdx vx vy p == row * SCREEN_WIDTH + col)) = none := by
    rw [List.find?_eq_none]
    intro p hp hcontra
    rw [mem_spriteTargets] at hp
    rw [Bool.and_eq_true, beq_iff_eq] at hcontra
    obtain ⟨hin, hidx⟩ := hcontra
    simp only [tIn, Bool.and_eq_true, decide_eq_true_eq] at hin
    simp only [tIdx] at hidx
    simp only [SCREEN_WIDTH, SCREEN_HEIGHT] at *
    omega
  rw [hnone]

/-- An in-bounds target cell is XORed with its sprite bit by a draw. -/
theorem drawSprite_screen_target (e : Emu) (vx vy n r b : Nat)
    (hr : r < n) (hb : b < 8) (hbx : vx + b < SCREEN_WIDTH) (hby : vy + r < SCREEN_HEIGHT) :
    (e.drawSprite vx vy n).screen ((vy + r) * SCREEN_WIDTH + (vx + b))
      = Bool.xor (e.screen ((vy + r) * SCREEN_WIDTH + (vx + b))) (sBit e (r, b)) := by
  have hmem : (r, b) ∈ spriteTargets n := (mem_spriteTargets n (r, b)).mpr ⟨hr, hb⟩
  have hpred : (tIn vx vy (r, b)
      && (tIdx vx vy (r, b) == (vy + r) * SCREEN_WIDTH + (vx + b))) = true := by
    rw [Bool.and_eq_true, beq_iff_eq]
    refine ⟨?_, rfl⟩
    simp only [tIn, Bool.and_eq_true, decide_eq_true_eq]
    exact ⟨hbx, hby⟩
  have hfind : (spriteTargets n).find?
      (fun p => tIn vx vy p && (tIdx vx vy p == (vy + r) * SCREEN_WIDTH + (vx + b)))
      = some (r, b) := by
    cases hft : (spriteTargets n).find?
        (fun p => tIn vx vy p && (tIdx vx vy p == (vy + r) * SCREEN_WIDTH + (vx + b))) with
    | none => exact absurd hpred (List.find?_eq_none.mp hft (r, b) hmem)
    | some q =>
        have hq1 := List.find?_some hft
        have hq2 := List.mem_of_find?_eq_some hft
        rw [Bool.and_eq_true, beq_iff_eq] at hq1
        have hqe : q = (r, b) := by
          apply spriteTargets_inj vx vy n q hq2 (r, b) hmem hq1.1
          · rw [Bool.and_eq_true, beq_iff_eq] at hpred
            exact hpred.1
          · rw [hq1.2]
            rfl
        rw [hqe]
  rw [drawSprite_screen, hfind]

/-- The collision flag is 1 exactly when some pixel goes from on to off. -/
theorem drawSprite_collision_iff (e : Emu) (vx vy n : Nat) :
    ((spriteTargets n).any
        (fun p => tIn vx vy p && sBit e p && e.screen (tIdx vx vy p)) = true)
      ↔ ∃ j, j < SCREEN_WIDTH * SCREEN_HEIGHT ∧ e.screen j = true
          ∧ (e.drawSprite vx vy n).screen j = false := by
  constructor
  · intro h
    rw [List.any_eq_true] at h
    obtain ⟨p, hp, hpred⟩ := h
    obtain ⟨r, b⟩ := p
    rw [mem_spriteTargets] at hp
    rw [Bool.and_eq_true, Bool.and_eq_true] at hpred
    obtain ⟨⟨hin, hbit⟩, hold⟩ := hpred
    simp only [tIn, Bool.and_eq_true, decide_eq_true_eq] at hin
    simp only [tIdx] at hold
    refine ⟨(vy + r) * SCREEN_WIDTH + (vx + b), ?_, hold, ?_⟩
    · simp only [SCREEN_WIDTH, SCREEN_HEIGHT] at *
      omega
    · rw [drawSprite_screen_target e vx vy n r b hp.1 hp.2 hin.1 hin.2, hold, hbit]
      rfl
  · rintro ⟨j, hj, hold, hnew⟩
    have hw : j / SCREEN_WIDTH < SCREEN_HEIGHT ∧ j % SCREEN_WIDTH < SCREEN_WIDTH
        ∧ (j / SCREEN_WIDTH) * SCREEN_WIDTH + j % SCREEN_WIDTH = j := by
      simp only [SCREEN_WIDTH, SCREEN_HEIGHT] at *
      omega
    by_cases ht : vx ≤ j % SCREEN_WIDTH ∧ j % SCREEN_WIDTH < vx + 8
        ∧ vy ≤ j / SCREEN_WIDTH ∧ j / SCREEN_WIDTH < vy + n
    · obtain ⟨h1, h2, h3, h4⟩ := ht
      have hidx : (vy + (j / SCREEN_WIDTH - vy)) * SCREEN_WIDTH + (vx + (j % SCREEN_WIDTH - vx))
          = j := by
        simp only [SCREEN_WIDTH] at *
        omega
      have ht2 := drawSprite_screen_target e vx vy n (j / SCREEN_WIDTH - vy)
        (j % SCREEN_WIDTH - vx) (by omega) (by omega)
        (by simp only [SCREEN_WIDTH] at *; omega)
        (by simp only [SCREEN_WIDTH, SCREEN_HEIGHT] at *; omega)
      rw [hidx, hold, hnew] at ht2
      rw [List.any_eq_true]
      refine ⟨(j / SCREEN_WIDTH - vy, j % SCREEN_WIDTH - vx), ?_, ?_⟩
      · rw [mem_spriteTargets]
        constructor <;> omega
      · rw [Bool.and_eq_true, Bool.and_eq_true]
        refine ⟨⟨?_, ?_⟩, ?_⟩
        · simp only [tIn, Bool.and_eq_true, decide_eq_true_eq]
          constructor
          · simp only [SCREEN_WIDTH] at *
            omega
          · simp only [SCREEN_WIDTH, SCREEN_HEIGHT] at *
            omega
        · cases hbit : sBit e (j / SCREEN_WIDTH - vy, j % SCREEN_WIDTH - vx) with
          | true => rfl
          | false =>
              rw [hbit] at ht2
              simp at ht2
        · show e.screen (tIdx vx vy (j / SCREEN_WIDTH - vy, j % SCREEN_WIDTH - vx)) = true
          simp only [tIdx]
          rw [hidx]
          exact hold
    · exfalso
      have hfr := drawSprite_screen_frame e vx vy n (j % SCREEN_WIDTH) (j / SCREEN_WIDTH)
        hw.2.1 hw.1 ht
      rw [hw.2.2] at hfr
      rw [hfr, hold] at hnew
      exact Bool.noConfusion hnew

/-- C2: executing the draw-sprite opcode reports no error; every screen cell
that is not an in-bounds sprite target keeps its value (out-of-grid sprite
pixels are clipped — written nowhere, never wrapped to the opposite edge);
every in-bounds target cell is XORed with its sprite bit; and register 0xF
is set to 1 exactly when some pixel transitioned from on to off. -/
theorem drw_exec_spec (e : Emu) (x y n rnd : Nat) :
    (e.execute (Instr.drw x y n) rnd).2 = none
  ∧ (∀ col row, col < SCREEN_WIDTH → row < SCREEN_HEIGHT →
      ¬(e.v_reg x ≤ col ∧ col < e.v_reg x + 8 ∧ e.v_reg y ≤ row ∧ row < e.v_reg y + n) →
      (e.execute (Instr.drw x y n) rnd).1.screen (row * SCREEN_WIDTH + col)
        = e.screen (row * SCREEN_WIDTH + col))
  ∧ (∀ r b, r < n → b < 8 → e.v_reg x + b < SCREEN_WIDTH → e.v_reg y + r < SCREEN_HEIGHT →
      (e.execute (Instr.drw x y n) rnd).1.screen
          ((e.v_reg y + r) * SCREEN_WIDTH + (e.v_reg x + b))
        = Bool.xor (e.screen ((e.v_reg y + r) * SCREEN_WIDTH + (e.v_reg x + b)))
            (sBit e (r, b)))
  ∧ ((∃ j, j < SCREEN_WIDTH * SCREEN_HEIGHT ∧ e.screen j = true
        ∧ (e.execute (Instr.drw x y n) rnd).1.screen j = false) →
      (e.execute (Instr.drw x y n) rnd).1.v_reg 15 = 1)
  ∧ (¬(∃ j, j < SCREEN_WIDTH * SCREEN_HEIGHT ∧ e.screen j = true
        ∧ (e.execute (Instr.drw x y n) rnd).1.screen j = false) →
      (e.execute (Instr.drw x y n) rnd).1.v_reg 15 = 0) := by
  have hexec : e.execute (Instr.drw x y n) rnd
      = (e.drawSprite (e.v_reg x) (e.v_reg y) n, none) := rfl
  simp only [hexec]
  refine ⟨trivial, ?_, ?_, ?_, ?_⟩
  · exact fun col row hcol hrow hnt =>
      drawSprite_screen_frame e (e.v_reg x) (e.v_reg y) n col row hcol hrow hnt
  · exact fun r b hr hb hbx hby =>
      drawSprite_screen_target e (e.v_reg x) (e.v_reg y) n r b hr hb hbx hby
  · intro hcol
    rw [drawSprite_flag,
      if_pos ((drawSprite_collision_iff e (e.v_reg x) (e.v_reg y) n).mpr hcol)]
  · intro hncol
    rw [drawSprite_flag, if_neg (fun hcontra =>
      hncol ((drawSprite_collision_iff e (e.v_reg x) (e.v_reg y) n).mp hcontra))]

/-- Witness for C2: drawing the full 8-pixel sprite row 0xFF at x = 60 on a
clear screen leaves column 0 untouched (no wraparound), XORs the in-bounds
pixel at column 63, and reports no collision. -/
theorem drw_exec_spec_witness :
    (e_draw.execute (Instr.drw 0 1 1) 0).1.screen 0 = e_draw.screen 0
  ∧ (e_draw.execute (Instr.drw 0 1 1) 0).1.screen 63
      = Bool.xor (e_draw.screen 63) (sBit e_draw (0, 3))
  ∧ (e_draw.execute (Instr.drw 0 1 1) 0).1.v_reg 15 = 0 := by
  have h := drw_exec_spec e_draw 0 1 1 0
  refine ⟨?_, ?_, ?_⟩
  · exact h.2.1 0 0 (by decide) (by decide) (by decide)
  · exact h.2.2.1 0 3 (by decide) (by decide) (by decide) (by decide)
  · refine h.2.2.2.2 ?_
    rintro ⟨j, hj, hscr, hnew⟩
    have hfalse : e_draw.screen j = false := rfl
    rw [hfalse] at hscr
    exact Bool.noConfusion hscr

end Chip8
